import Mathlib

/-!
Verification of the 8-key macropad web configurator's serial protocol layer
(web-config/webserial.js): frame encoding, input validation, modifier-token
substitution, the streaming response parser and the connection state machine.

JavaScript strings are modelled as lists of UTF-16 code units (`List Nat`);
every function below is a direct transcription of the corresponding
JavaScript function.
-/

/-- UTF-16 code units of a (BMP) string literal. -/
def jstr (s : String) : List Nat := s.data.map Char.toNat

/-- Index of the first occurrence of `t` in `s` (JS `String.indexOf`). -/
def firstIdx (t : List Nat) : List Nat → Option Nat
  | [] => if List.isPrefixOf t [] then some 0 else none
  | c :: s =>
    if List.isPrefixOf t (c :: s) then some 0
    else
      match firstIdx t s with
      | none => none
      | some i => some (i + 1)

/-- JS `String.replace` with a plain-string pattern: replace the first
occurrence of `t` by `r`, or return `s` unchanged when `t` does not occur. -/
def replaceFirst (t r s : List Nat) : List Nat :=
  match firstIdx t s with
  | none => s
  | some i => List.take i s ++ r ++ List.drop (i + t.length) s

/-- JS `String.includes`: does `t` occur somewhere in `s`? -/
def containsStr (t s : List Nat) : Bool := (firstIdx t s).isSome

/-- The substitution table of `replaceModifier`, in source order:
bracketed token ↦ sentinel code unit. -/
def subs : List (List Nat × Nat) :=
  [ (jstr "{lctrl}", 0xe0), (jstr "{lshift}", 0xe1), (jstr "{lalt}", 0xe2),
    (jstr "{lgui}", 0xe3), (jstr "{rctrl}", 0xe4), (jstr "{rshift}", 0xe5),
    (jstr "{ralt}", 0xe6), (jstr "{rgui}", 0xe7),
    (jstr "{arrowup}", 0xd2), (jstr "{arrowdown}", 0xd1), (jstr "{arrowleft}", 0xd0),
    (jstr "{arrowright}", 0xcf), (jstr "{pagedown}", 0xce), (jstr "{end}", 0xcd),
    (jstr "{delete}", 0xcc), (jstr "{pageup}", 0xcb), (jstr "{home}", 0xca),
    (jstr "{insert}", 0xc9), (jstr "{pause}", 0xc8), (jstr "{scrolllock}", 0xc7),
    (jstr "{prtscr}", 0xc6), (jstr "{f12}", 0xc5), (jstr "{f11}", 0xc4),
    (jstr "{f10}", 0xc3), (jstr "{f9}", 0xc2), (jstr "{f8}", 0xc1),
    (jstr "{f7}", 0xc0), (jstr "{f6}", 0xbf), (jstr "{f5}", 0xbe),
    (jstr "{f4}", 0xbd), (jstr "{f3}", 0xbc), (jstr "{f2}", 0xbb),
    (jstr "{f1}", 0xba),
    (jstr "{enter}", 0xa8), (jstr "{escape}", 0xa9), (jstr "{bkspace}", 0xaa),
    (jstr "{tab}", 0xab), (jstr "{space}", 0xac) ]

/-- One sequential `.replace` call of `replaceModifier`. -/
def subStep (s : List Nat) (p : List Nat × Nat) : List Nat := replaceFirst p.1 [p.2] s

/-- `replaceModifier` from webserial.js: the chain of 38 `.replace` calls. -/
def replaceModifier (input : List Nat) : List Nat := List.foldl subStep input subs

/-- The 8 modifier tokens tested by `getModifierNum`, in source order. -/
def modifierTokens : List (List Nat) :=
  [ jstr "{lctrl}", jstr "{lshift}", jstr "{lalt}", jstr "{lgui}",
    jstr "{rctrl}", jstr "{rshift}", jstr "{ralt}", jstr "{rgui}" ]

/-- `getModifierNum` from webserial.js: sum of 8 `includes` tests. -/
def getModifierNum (input : List Nat) : Nat :=
  (if containsStr (jstr "{lctrl}") input = true then 1 else 0) +
  (if containsStr (jstr "{lshift}") input = true then 1 else 0) +
  (if containsStr (jstr "{lalt}") input = true then 1 else 0) +
  (if containsStr (jstr "{lgui}") input = true then 1 else 0) +
  (if containsStr (jstr "{rctrl}") input = true then 1 else 0) +
  (if containsStr (jstr "{rshift}") input = true then 1 else 0) +
  (if containsStr (jstr "{ralt}") input = true then 1 else 0) +
  (if containsStr (jstr "{rgui}") input = true then 1 else 0)

/-- `is_valid` from webserial.js. -/
def is_valid (input : List Nat) : Bool :=
  if 0 < getModifierNum input then
    if 6 < ((replaceModifier input).length : Int) - (getModifierNum input : Int) then
      false
    else
      true
  else
    if 128 < (replaceModifier input).length then false else true

/-- `toU8Array` from webserial.js: code units truncated to bytes, then the
byte at index 3 overwritten with `len - 4` (a typed-array store, so it wraps
modulo 256 and is a no-op when the array is shorter than 4). -/
def toU8Array (s : List Nat) : List Nat :=
  List.set (s.map (fun c => c % 256)) 3 ((((s.length : Int) - 4) % 256)).toNat

/-- Decimal rendering of a JS number appended to a string. -/
def numStr (n : Nat) : List Nat := jstr (Nat.repr n)

/-- `encode` from webserial.js (macro-bind frame, type 0); `profile` and
`top.keyNumber` are passed explicitly instead of read from globals. -/
def encode (profile : List Nat) (keyNumber : Nat) (input : List Nat) : List Nat :=
  jstr "ebf" ++ jstr "0" ++ jstr "0" ++ profile ++ jstr "." ++ numStr keyNumber ++
    jstr ":" ++ (if 0 < getModifierNum input then jstr "1" else jstr "0") ++
    replaceModifier input

/-- `encodeAliasConfig` from webserial.js (types 2 / 3). -/
def encodeAliasConfig (enable : Bool) (profile : List Nat) (keyNumber : Nat)
    (input : List Nat) : List Nat :=
  if enable then
    jstr "ebf" ++ jstr "0" ++ jstr "2" ++ profile ++ jstr "." ++ numStr keyNumber ++
      jstr ":" ++ input
  else
    jstr "ebf" ++ jstr "0" ++ jstr "3" ++ profile ++ jstr "." ++ numStr keyNumber ++
      jstr ":"

/-- `encodeScriptConfig` from webserial.js (types 6 / 7). -/
def encodeScriptConfig (enable : Bool) (profile : List Nat) (keyNumber : Nat)
    (input : List Nat) : List Nat :=
  if enable then
    jstr "ebf" ++ jstr "0" ++ jstr "6" ++ profile ++ jstr "." ++ numStr keyNumber ++
      jstr ":" ++ input
  else
    jstr "ebf" ++ jstr "0" ++ jstr "7" ++ profile ++ jstr "." ++ numStr keyNumber ++
      jstr ":"

/-- `encodeWifiConfig` from webserial.js (type 4). -/
def encodeWifiConfig (ssid password : List Nat) : List Nat :=
  jstr "ebf" ++ jstr "0" ++ jstr "4" ++ ssid ++ jstr "." ++ password

/-- `encodeLedConfig` from webserial.js (type 1); `color.substring(1)` strips
the leading `#`. -/
def encodeLedConfig (color brightness : List Nat) : List Nat :=
  jstr "ebf" ++ jstr "0" ++ jstr "1" ++ List.drop 1 color ++ brightness

/-- The inbound banner marker `"APP-VER="`. -/
def marker : List Nat := jstr "APP-VER="

/-- Code units treated as leading whitespace by JS `parseInt`. -/
def isSpaceChar (c : Nat) : Bool := c = 32 || (9 ≤ c && c ≤ 13) || c = 160

/-- Decimal digit code unit. -/
def isDigitChar (c : Nat) : Bool := 48 ≤ c && c ≤ 57

/-- Value of a string of decimal digit code units. -/
def digitsVal (s : List Nat) : Nat := s.foldl (fun a c => a * 10 + (c - 48)) 0

/-- JS `parseInt(s, 10)`: skip leading whitespace, optional sign, then the
longest digit prefix; `none` models `NaN`. -/
def parseInt10 (s : List Nat) : Option Int :=
  let t := s.dropWhile isSpaceChar
  match t with
  | [] => none
  | c :: rest =>
    if c = 43 then
      let d := rest.takeWhile isDigitChar
      if d = [] then none else some (digitsVal d)
    else if c = 45 then
      let d := rest.takeWhile isDigitChar
      if d = [] then none else some (-(digitsVal d : Int))
    else
      let d := t.takeWhile isDigitChar
      if d = [] then none else some (digitsVal d)

/-- One iteration of the read loop in `connectSerial`: append the chunk to
the accumulated response buffer; if the buffer is longer than 8 and contains
the marker, parse `rsp.substring(8)` as the version (second component
`some v` = a `VersionNumber` event with value `v`, where `none` inside models
`NaN`) and clear the buffer. -/
def feed (rsp chunk : List Nat) : List Nat × Option (Option Int) :=
  if 8 < (rsp ++ chunk).length ∧ containsStr marker (rsp ++ chunk) = true then
    ([], some (parseInt10 ((rsp ++ chunk).drop 8)))
  else
    (rsp ++ chunk, none)

/-- Observable state of the page: the `portOpen` flag, the two button
visibility flags, how many times `port.open` has been invoked, and the byte
arrays written to the port. -/
structure UIState where
  portOpen : Bool
  connectHidden : Bool
  disconnectHidden : Bool
  openCount : Nat
  written : List (List Nat)
deriving DecidableEq

/-- Page state on load. -/
def initState : UIState :=
  { portOpen := false, connectHidden := false, disconnectHidden := true,
    openCount := 0, written := [] }

/-- The successful path of `connectSerial` up to entering the read loop:
request + open the port, swap the buttons, set `portOpen`, and auto-send the
version query frame `"ebf" + '0' + '5'`. -/
def connectSerialStep (s : UIState) : UIState :=
  { s with
    openCount := s.openCount + 1
    connectHidden := true
    disconnectHidden := false
    portOpen := true
    written := s.written ++ [toU8Array (jstr "ebf" ++ jstr "0" ++ jstr "5")] }

/-- The `connectButton` click listener: no guard on `portOpen`. -/
def clickConnect (serialSupported : Bool) (s : UIState) : UIState :=
  if serialSupported then connectSerialStep s else s

/-- The `saveConfigButton` click listener followed by `sendConfig`: only
writes when the port is open and the macro input validates. -/
def clickSave (serialSupported : Bool) (macroInput : List Nat) (aliasEnable : Bool)
    (aliasInput : List Nat) (scriptEnable : Bool) (scriptInput : List Nat)
    (profile : List Nat) (keyNumber : Nat) (s : UIState) : UIState :=
  if serialSupported then
    if s.portOpen then
      if is_valid macroInput then
        { s with written := s.written ++
            [ toU8Array (encode profile keyNumber macroInput),
              toU8Array (encodeAliasConfig aliasEnable profile keyNumber aliasInput),
              toU8Array (encodeScriptConfig scriptEnable profile keyNumber scriptInput) ] }
      else s
    else s
  else s

/-- `t` occurs in `s` at position `i`. -/
def occursAt (t s : List Nat) (i : Nat) : Prop :=
  ∃ u v : List Nat, s = u ++ (t ++ v) ∧ u.length = i

/-- Decidable version of `occursAt`. -/
def occursAtB (t s : List Nat) (i : Nat) : Bool := List.isPrefixOf t (List.drop i s)

/-- The 38 token literals of the substitution table. -/
def tokenList : List (List Nat) := subs.map Prod.fst

/-- No two distinct (token, position) occurrences of known tokens in `s`
overlap. -/
def OverlapFree (s : List Nat) : Prop :=
  ∀ a ∈ tokenList, ∀ b ∈ tokenList, ∀ i < s.length, ∀ j < s.length,
    occursAtB a s i = true → occursAtB b s j = true → (a, i) ≠ (b, j) →
    i + a.length ≤ j ∨ j + b.length ≤ i

set_option synthInstance.maxSize 4096 in
instance decOverlapFree (s : List Nat) : Decidable (OverlapFree s) := by
  unfold OverlapFree
  infer_instance

/-! ### Helper lemmas -/

/-- `getModifierNum` is the count, over the fixed 8-token table, of tokens
that occur in the input. -/
theorem gmn_eq_countP (s : List Nat) :
    getModifierNum s = List.countP (fun t => containsStr t s) modifierTokens := by
  simp only [modifierTokens, List.countP_cons, List.countP_nil, getModifierNum]
  omega

theorem gmn_pos_iff (s : List Nat) :
    0 < getModifierNum s ↔ ∃ t ∈ modifierTokens, containsStr t s = true := by
  rw [gmn_eq_countP]
  exact List.countP_pos_iff

theorem gmn_zero_iff (s : List Nat) :
    getModifierNum s = 0 ↔ ∀ t ∈ modifierTokens, ¬containsStr t s = true := by
  rw [gmn_eq_countP]
  exact List.countP_eq_zero

/-! ### Claim theorems -/

/-- C3: for every macro string containing at least one of the 8 modifier
tokens, `is_valid` accepts exactly when the escaped string length minus the
modifier count is at most 6 (so in particular a difference of 7 is
rejected), independent of which modifier tokens are used. -/
theorem is_valid_modifier_budget (input : List Nat)
    (h : ∃ t ∈ modifierTokens, containsStr t input = true) :
    is_valid input = true ↔
      ((replaceModifier input).length : Int) - (getModifierNum input : Int) ≤ 6 := by
  have hpos : 0 < getModifierNum input := (gmn_pos_iff input).2 h
  unfold is_valid
  rw [if_pos hpos]
  by_cases hc :
      (6 : Int) < ((replaceModifier input).length : Int) - (getModifierNum input : Int)
  · rw [if_pos hc]
    simp only [Bool.false_eq_true, false_iff]
    omega
  · rw [if_neg hc]
    simp only [true_iff]
    omega

theorem is_valid_modifier_budget_w :
    (∃ t ∈ modifierTokens, containsStr t (jstr "{lctrl}ab") = true) ∧
    (is_valid (jstr "{lctrl}ab") = true ↔
      ((replaceModifier (jstr "{lctrl}ab")).length : Int) -
        (getModifierNum (jstr "{lctrl}ab") : Int) ≤ 6) :=
  ⟨by decide, is_valid_modifier_budget _ (by decide)⟩

/-- C4: for every macro string containing zero modifier tokens, `is_valid`
accepts exactly when the escaped string length is at most 128 (so escaped
length 129 is rejected). -/
theorem is_valid_length_budget (input : List Nat)
    (h : ∀ t ∈ modifierTokens, ¬containsStr t input = true) :
    is_valid input = true ↔ (replaceModifier input).length ≤ 128 := by
  have hz : getModifierNum input = 0 := (gmn_zero_iff input).2 h
  unfold is_valid
  rw [hz]
  rw [if_neg (by omega)]
  by_cases hc : 128 < (replaceModifier input).length
  · rw [if_pos hc]
    simp only [Bool.false_eq_true, false_iff]
    omega
  · rw [if_neg hc]
    simp only [true_iff]
    omega

theorem is_valid_length_budget_w :
    (∀ t ∈ modifierTokens, ¬containsStr t (jstr "abc") = true) ∧
    (is_valid (jstr "abc") = true ↔ (replaceModifier (jstr "abc")).length ≤ 128) :=
  ⟨by decide, is_valid_length_budget _ (by decide)⟩

/-- C10: the modifier count equals the number of distinct modifier tokens
(from the fixed table of 8) that occur at least once in the string —
repeated occurrences of the same token contribute only once — and it never
exceeds 8. -/
theorem modifier_count_distinct (s : List Nat) :
    getModifierNum s = List.countP (fun t => containsStr t s) modifierTokens ∧
      getModifierNum s ≤ 8 := by
  refine ⟨gmn_eq_countP s, ?_⟩
  rw [gmn_eq_countP]
  exact le_trans (List.countP_le_length _) (by decide)

/-- C5 (amended): the byte at offset 3 of an assembled frame is a single
byte holding `(totalLength - 4) mod 256` (not necessarily a decimal digit),
the patch preserves the frame length, and re-deriving `length - 4` from the
built frame and patching again reproduces the same array (idempotence). -/
theorem length_field_byte (s : List Nat) (h : 4 ≤ s.length) :
    (toU8Array s).length = s.length ∧
    (toU8Array s)[3]? = some ((s.length - 4) % 256) ∧
    List.set (toU8Array s) 3 ((((toU8Array s).length : Int) - 4) % 256).toNat =
      toU8Array s := by
  have hlen : (toU8Array s).length = s.length := by
    simp [toU8Array]
  refine ⟨hlen, ?_, ?_⟩
  · unfold toU8Array
    rw [List.getElem?_set_self (by simpa using by omega)]
    congr 1
    omega
  · rw [hlen]
    unfold toU8Array
    rw [List.set_set]

theorem length_field_byte_w :
    4 ≤ (jstr "ebf05").length ∧
    ((toU8Array (jstr "ebf05")).length = (jstr "ebf05").length ∧
      (toU8Array (jstr "ebf05"))[3]? = some (((jstr "ebf05").length - 4) % 256) ∧
      List.set (toU8Array (jstr "ebf05")) 3
          ((((toU8Array (jstr "ebf05")).length : Int) - 4) % 256).toNat =
        toU8Array (jstr "ebf05")) :=
  ⟨by decide, length_field_byte _ (by decide)⟩

/-- C5 counterexample: the macro frame for profile `'0'`, key 1, text
`"abcdefg"` is 17 characters long, so the byte written at offset 3 is 13,
which is not a base-10 digit value. -/
theorem length_field_not_digit_cex :
    (toU8Array (encode (jstr "0") 1 (jstr "abcdefg")))[3]? = some 13 ∧
      ¬(13 : Nat) ≤ 9 := by decide

/-- C6 (amended): the transmitted array has the same length as the frame
string and, at every position other than the patched offset 3, holds the
UTF-16 code unit reduced modulo 256 (so it equals the code unit exactly
when the code unit is below 256; no multi-byte transcoding occurs). -/
theorem transmit_byte_mod256 (s : List Nat) (i : Nat) (h : i ≠ 3) :
    (toU8Array s).length = s.length ∧
    (toU8Array s)[i]? = (s[i]?).map (fun c => c % 256) := by
  refine ⟨by simp [toU8Array], ?_⟩
  unfold toU8Array
  rw [List.getElem?_set_ne (by omega)]
  simp

theorem transmit_byte_mod256_w :
    (0 : Nat) ≠ 3 ∧
    ((toU8Array (jstr "e")).length = (jstr "e").length ∧
      (toU8Array (jstr "e"))[0]? = ((jstr "e")[0]?).map (fun c => c % 256)) :=
  ⟨by decide, transmit_byte_mod256 _ 0 (by decide)⟩

/-- C6 counterexample: the CJK character U+590D is a single UTF-16 code unit
22797, but the transmitted byte is 22797 mod 256 = 13, not the code unit. -/
theorem transmit_byte_truncation_cex :
    (jstr "复")[0]? = some 22797 ∧
    (toU8Array (jstr "复"))[0]? = some 13 ∧
    (22797 : Nat) ≠ 13 := by decide

/-- C8: the alias-remove and script-remove frames for profile `'2'`, key 3
are exactly `"ebf"` + lengthByte + type + `"2.3:"` with type `'3'` resp.
`'7'` and the length byte equal to the total frame length (9) minus 4. -/
theorem remove_frames_exact :
    toU8Array (encodeAliasConfig false (jstr "2") 3 []) =
      jstr "ebf" ++ [5] ++ jstr "3" ++ jstr "2.3:" ∧
    toU8Array (encodeScriptConfig false (jstr "2") 3 []) =
      jstr "ebf" ++ [5] ++ jstr "7" ++ jstr "2.3:" ∧
    (encodeAliasConfig false (jstr "2") 3 []).length = 9 ∧
    (encodeScriptConfig false (jstr "2") 3 []).length = 9 ∧
    (9 : Nat) - 4 = 5 := by decide

/-- C1 (amended): the read loop appends each chunk to the buffer; once the
buffer is longer than 8 and contains the marker `"APP-VER="`, it parses
`buffer.substring(8)` — the text after index 8, which is the text after the
marker only when the marker sits at the start of the buffer — as a base-10
integer and clears the buffer.  Feeding `"APP-VER="` then `"5"` yields
`VersionNumber = 5` with the buffer cleared; feeding `"garbage"` then
`"APP-VER=12"` clears the buffer but the parse yields `NaN`, not 12. -/
theorem responseParser_substring8 :
    (∀ buf chunk : List Nat, 8 < (buf ++ chunk).length →
        containsStr marker (buf ++ chunk) = true →
        feed buf chunk = ([], some (parseInt10 ((buf ++ chunk).drop 8)))) ∧
    (∀ buf chunk : List Nat,
        ¬(8 < (buf ++ chunk).length ∧ containsStr marker (buf ++ chunk) = true) →
        feed buf chunk = (buf ++ chunk, none)) ∧
    feed [] (jstr "APP-VER=") = (jstr "APP-VER=", none) ∧
    feed (jstr "APP-VER=") (jstr "5") = ([], some (some 5)) ∧
    feed (jstr "garbage") (jstr "APP-VER=12") = ([], some none) := by
  refine ⟨?_, ?_, by decide, by decide, by decide⟩
  · intro buf chunk h1 h2
    unfold feed
    rw [if_pos ⟨h1, h2⟩]
  · intro buf chunk h
    unfold feed
    rw [if_neg h]

theorem responseParser_substring8_w :
    8 < ((jstr "APP-VER=") ++ (jstr "5")).length ∧
    containsStr marker ((jstr "APP-VER=") ++ (jstr "5")) = true ∧
    feed (jstr "APP-VER=") (jstr "5") =
      ([], some (parseInt10 (((jstr "APP-VER=") ++ (jstr "5")).drop 8))) :=
  ⟨by decide, by decide, responseParser_substring8.1 _ _ (by decide) (by decide)⟩

/-- C1 counterexample: feeding `"garbage"` then `"APP-VER=12"` does not
yield `VersionNumber = 12`; the code parses `"PP-VER=12"` (fixed index 8,
not the text after the marker) and gets `NaN`. -/
theorem responseParser_garbage_prefix_cex :
    feed (jstr "garbage") (jstr "APP-VER=12") ≠ ([], some (some 12)) ∧
    feed (jstr "garbage") (jstr "APP-VER=12") = ([], some none) := by decide

/-- C2 counterexample: `replaceModifier` replaces only the first occurrence
of each token (JS `String.replace` with a string pattern), so in
`"{f1}{f1}"` the second occurrence survives substitution. -/
theorem replace_first_occurrence_only_cex :
    replaceModifier (jstr "{f1}{f1}") = 0xba :: jstr "{f1}" ∧
    containsStr (jstr "{f1}") (replaceModifier (jstr "{f1}{f1}")) = true := by decide

/-- C2 (amended): before a macro-bind frame body is concatenated, the first
occurrence of each known bracketed token in the macro text is replaced by
its sentinel byte (later occurrences are left as-is), i.e. the body is
`replaceModifier input`; alias, script, wifi and led bodies are
concatenated verbatim, never token-substituted. -/
theorem body_token_substitution (p : List Nat) (k : Nat)
    (input ssid password color brightness : List Nat) :
    encode p k input =
      (jstr "ebf" ++ jstr "0" ++ jstr "0" ++ p ++ jstr "." ++ numStr k ++ jstr ":" ++
        (if 0 < getModifierNum input then jstr "1" else jstr "0")) ++
        replaceModifier input ∧
    encodeAliasConfig true p k input = encodeAliasConfig true p k [] ++ input ∧
    encodeScriptConfig true p k input = encodeScriptConfig true p k [] ++ input ∧
    encodeWifiConfig ssid password =
      jstr "ebf" ++ jstr "0" ++ jstr "4" ++ ssid ++ jstr "." ++ password ∧
    encodeLedConfig color brightness =
      jstr "ebf" ++ jstr "0" ++ jstr "1" ++ List.drop 1 color ++ brightness := by
  refine ⟨?_, ?_, ?_, rfl, rfl⟩
  · simp [encode, List.append_assoc]
  · simp [encodeAliasConfig, List.append_assoc]
  · simp [encodeScriptConfig, List.append_assoc]

/-- C7 (amended): clicking save while the port flag is down changes nothing
(no bytes written, no state change); but clicking connect while already
connected is neither a no-op nor a rejection — it re-runs the connect
routine and opens the port a second time. -/
theorem connection_guards :
    (∀ (sup : Bool) (macroInput : List Nat) (ae : Bool) (ai : List Nat) (se : Bool)
        (si : List Nat) (p : List Nat) (k : Nat) (st : UIState),
        st.portOpen = false →
        clickSave sup macroInput ae ai se si p k st = st) ∧
    (∀ st : UIState, st.portOpen = true →
        (clickConnect true st).openCount = st.openCount + 1 ∧
          clickConnect true st ≠ st) := by
  constructor
  · intro sup mi ae ai se si p k st h
    simp [clickSave, h]
  · intro st h
    refine ⟨by simp [clickConnect, connectSerialStep], ?_⟩
    intro he
    have hoc := congrArg UIState.openCount he
    simp [clickConnect, connectSerialStep] at hoc

theorem connection_guards_w :
    initState.portOpen = false ∧
    clickSave true [] true [] true [] [] 1 initState = initState ∧
    (clickConnect true initState).portOpen = true ∧
    (clickConnect true (clickConnect true initState)).openCount =
      (clickConnect true initState).openCount + 1 :=
  ⟨rfl, connection_guards.1 true [] true [] true [] [] 1 initState rfl, by decide,
    (connection_guards.2 (clickConnect true initState) (by decide)).1⟩

/-- C7 counterexample: from the connected state, clicking connect again is
not a no-op: it opens the port a second time (`openCount` reaches 2). The
double-open is prevented only by the UI hiding the connect button. -/
theorem connect_double_open_cex :
    clickConnect true (clickConnect true initState) ≠ clickConnect true initState ∧
    (clickConnect true (clickConnect true initState)).openCount = 2 := by decide

/-! ### Occurrence and first-index lemmas (for C9) -/

theorem occursAt_zero {t s : List Nat} : occursAt t s 0 ↔ t <+: s := by
  constructor
  · rintro ⟨u, v, h, hu⟩
    have : u = [] := List.length_eq_zero.1 hu
    subst this
    exact ⟨v, by simp [h]⟩
  · rintro ⟨w, hw⟩
    exact ⟨[], w, by simp [hw.symm], rfl⟩

theorem occursAt_cons_succ {t s : List Nat} {c : Nat} {i : Nat} :
    occursAt t (c :: s) (i + 1) ↔ occursAt t s i := by
  constructor
  · rintro ⟨u, v, h, hu⟩
    cases u with
    | nil => simp at hu
    | cons u₀ u' =>
      rcases List.cons_eq_cons.1 h with ⟨-, h2⟩
      exact ⟨u', v, h2, by simpa using hu⟩
  · rintro ⟨u, v, h, hu⟩
    exact ⟨c :: u, v, by simp [h], by simp [hu]⟩

theorem firstIdx_some_occurs {t : List Nat} :
    ∀ {s : List Nat} {i : Nat}, firstIdx t s = some i → occursAt t s i := by
  intro s
  induction s with
  | nil =>
    intro i h
    unfold firstIdx at h
    split at h
    · injection h with h'
      subst h'
      exact occursAt_zero.2 ( List.isPrefixOf_iff_prefix.1 (by assumption))
    · cases h
  | cons c s ih =>
    intro i h
    unfold firstIdx at h
    split at h
    · injection h with h'
      subst h'
      exact occursAt_zero.2 ( List.isPrefixOf_iff_prefix.1 (by assumption))
    · cases hf : firstIdx t s with
      | none => rw [hf] at h; cases h
      | some i' =>
        rw [hf] at h
        injection h with h'
        subst h'
        exact occursAt_cons_succ.2 (ih hf)

theorem firstIdx_min {t : List Nat} :
    ∀ {s : List Nat} {i : Nat}, firstIdx t s = some i →
      ∀ j, occursAt t s j → i ≤ j := by
  intro s
  induction s with
  | nil =>
    intro i h j _
    unfold firstIdx at h
    split at h
    · injection h with h'
      omega
    · cases h
  | cons c s ih =>
    intro i h j hj
    unfold firstIdx at h
    split at h
    · injection h with h'
      omega
    · cases hf : firstIdx t s with
      | none => rw [hf] at h; cases h
      | some i' =>
        rw [hf] at h
        injection h with h'
        cases j with
        | zero =>
          exfalso
          have : List.isPrefixOf t (c :: s) = true :=
            List.isPrefixOf_iff_prefix.2 (occursAt_zero.1 hj)
          simp_all
        | succ j' =>
          have := ih hf j' (occursAt_cons_succ.1 hj)
          omega

theorem firstIdx_none_not_occurs {t : List Nat} :
    ∀ {s : List Nat}, firstIdx t s = none → ∀ j, ¬occursAt t s j := by
  intro s
  induction s with
  | nil =>
    intro h j hj
    unfold firstIdx at h
    split at h
    · cases h
    · rename_i hcond
      rcases hj with ⟨u, v, huv, hu⟩
      have h2 := List.append_eq_nil.1 huv.symm
      have h3 := List.append_eq_nil.1 h2.2
      exact hcond (by rw [h3.1]; rfl)
  | cons c s ih =>
    intro h j hj
    unfold firstIdx at h
    split at h
    · cases h
    · rename_i hcond
      cases hf : firstIdx t s with
      | some i' => rw [hf] at h; cases h
      | none =>
        cases j with
        | zero => exact hcond ( List.isPrefixOf_iff_prefix.2 (occursAt_zero.1 hj))
        | succ j' => exact ih hf j' (occursAt_cons_succ.1 hj)

theorem firstIdx_eq_some_of {t s : List Nat} {i : Nat} (hocc : occursAt t s i)
    (hmin : ∀ j, occursAt t s j → i ≤ j) : firstIdx t s = some i := by
  cases hf : firstIdx t s with
  | none => exact absurd hocc (firstIdx_none_not_occurs hf i)
  | some i' =>
    have h1 := firstIdx_min hf i hocc
    have h2 := hmin i' (firstIdx_some_occurs hf)
    have : i' = i := by omega
    rw [this]

theorem firstIdx_eq_none_of {t s : List Nat} (h : ∀ j, ¬occursAt t s j) :
    firstIdx t s = none := by
  cases hf : firstIdx t s with
  | none => rfl
  | some i => exact absurd (firstIdx_some_occurs hf) (h i)

theorem replaceFirst_of_none {t r s : List Nat} (h : firstIdx t s = none) :
    replaceFirst t r s = s := by
  unfold replaceFirst
  rw [h]

theorem replaceFirst_decomp {t r s x y : List Nat} {i : Nat}
    (hf : firstIdx t s = some i) (hs : s = x ++ (t ++ y)) (hx : x.length = i) :
    replaceFirst t r s = x ++ (r ++ y) := by
  unfold replaceFirst
  rw [hf]
  subst hx
  subst hs
  dsimp only
  have hdrop : List.drop (x.length + t.length) (x ++ (t ++ y)) = y := by
    rw [← List.append_assoc]
    have h := List.drop_left (x ++ t) y
    rwa [List.length_append] at h
  rw [List.take_left, hdrop]
  simp

theorem occursAt_append_left {t u : List Nat} {k : Nat} (h : occursAt t u k)
    (z : List Nat) : occursAt t (u ++ z) k := by
  rcases h with ⟨p, q, hpq, hp⟩
  exact ⟨p, q ++ z, by simp [hpq], hp⟩

theorem occursAt_append_right {t z : List Nat} {m : Nat} (u : List Nat)
    (h : occursAt t z m) : occursAt t (u ++ z) (u.length + m) := by
  rcases h with ⟨p, q, hpq, hp⟩
  exact ⟨u ++ p, q, by simp [hpq], by simp [hp]⟩

theorem occursAt_split {t u v : List Nat} {c : Nat} {k : Nat}
    (ht : t ≠ []) (hc : c ∉ t) (h : occursAt t (u ++ c :: v) k) :
    (occursAt t u k ∧ k + t.length ≤ u.length) ∨
      ∃ m, k = u.length + 1 + m ∧ occursAt t v m := by
  obtain ⟨p, q, hpq, hp⟩ := h
  rcases List.append_eq_append_iff.1 hpq with ⟨w, hw1, hw2⟩ | ⟨w, hw1, hw2⟩
  · -- p = u ++ w and c :: v = w ++ (t ++ q)
    cases w with
    | nil =>
      exfalso
      simp only [List.nil_append] at hw2
      cases t with
      | nil => exact ht rfl
      | cons t₀ t' =>
        rcases List.cons_eq_cons.1 hw2 with ⟨h1, -⟩
        exact hc (h1 ▸ List.mem_cons_self t₀ t')
    | cons w₀ w' =>
      rcases List.cons_eq_cons.1 hw2 with ⟨-, h2⟩
      refine Or.inr ⟨w'.length, ?_, ⟨w', q, h2, rfl⟩⟩
      have : p.length = u.length + (w₀ :: w').length := by rw [hw1, List.length_append]
      simp only [List.length_cons] at this
      omega
  · -- u = p ++ w and t ++ q = w ++ (c :: v)
    rcases List.append_eq_append_iff.1 hw2 with ⟨x, hx1, hx2⟩ | ⟨x, hx1, hx2⟩
    · -- w = t ++ x and q = x ++ (c :: v)
      refine Or.inl ⟨⟨p, x, by rw [hw1, hx1], hp⟩, ?_⟩
      have : u.length = p.length + (t.length + x.length) := by
        rw [hw1, hx1]; simp
      omega
    · -- t = w ++ x and c :: v = x ++ q
      cases x with
      | nil =>
        simp only [List.append_nil] at hx1
        simp only [List.nil_append] at hx2
        refine Or.inl ⟨⟨p, [], by rw [hw1, hx1]; simp, hp⟩, ?_⟩
        have : u.length = p.length + t.length := by
          rw [hw1, hx1, List.length_append]
        omega
      | cons x₀ x' =>
        exfalso
        rcases List.cons_eq_cons.1 hx2 with ⟨h1, -⟩
        exact hc (by rw [hx1, h1]; exact List.mem_append_right w (List.mem_cons_self x₀ x'))

theorem occursAt_same {a b s : List Nat} {i : Nat}
    (h1 : occursAt a s i) (h2 : occursAt b s i) : a <+: b ∨ b <+: a := by
  obtain ⟨u, v, hs1, hu⟩ := h1
  obtain ⟨p, q, hs2, hp⟩ := h2
  have hup := List.append_inj (hs1.symm.trans hs2) (by omega)
  rcases List.append_eq_append_iff.1 hup.2 with ⟨w, hw1, hw2⟩ | ⟨w, hw1, hw2⟩
  · exact Or.inl ⟨w, hw1.symm⟩
  · exact Or.inr ⟨w, hw1.symm⟩

theorem occursAt_after_block {a b u z : List Nat} {br : Nat} {j : Nat}
    (hbne : b ≠ []) (hbhead : b.head? = some br) (hbr : br ∉ List.drop 1 a)
    (h : occursAt b (u ++ (a ++ z)) j) (hj : u.length < j) :
    ∃ m, j = u.length + a.length + m ∧ occursAt b z m := by
  obtain ⟨p, q, hpq, hp⟩ := h
  rcases List.append_eq_append_iff.1 hpq with ⟨d, hd1, hd2⟩ | ⟨d, hd1, hd2⟩
  · -- p = u ++ d and a ++ z = d ++ (b ++ q)
    rcases List.append_eq_append_iff.1 hd2 with ⟨e, he1, he2⟩ | ⟨e, he1, he2⟩
    · -- d = a ++ e and z = e ++ (b ++ q)
      refine ⟨e.length, ?_, ⟨e, q, he2, rfl⟩⟩
      have : p.length = u.length + (a.length + e.length) := by
        rw [hd1, he1]; simp
      omega
    · -- a = d ++ e and b ++ q = e ++ z
      cases e with
      | nil =>
        simp only [List.append_nil] at he1
        simp only [List.nil_append] at he2
        refine ⟨0, ?_, ⟨[], q, by simp only [List.nil_append]; exact he2.symm, rfl⟩⟩
        have : p.length = u.length + a.length := by
          rw [hd1, he1, List.length_append]
        omega
      | cons e₀ e' =>
        exfalso
        cases b with
        | nil => exact hbne rfl
        | cons b₀ bt =>
          have hb0 : b₀ = br := by
            simp only [List.head?] at hbhead
            injection hbhead
          have he2' : b₀ = e₀ := (List.cons_eq_cons.1 he2).1
          have hdne : d ≠ [] := by
            intro hd
            subst hd
            simp only [List.append_nil] at hd1
            subst hd1
            omega
          cases d with
          | nil => exact hdne rfl
          | cons d₀ d' =>
            apply hbr
            rw [he1]
            simp only [List.cons_append, List.drop_succ_cons, List.drop_zero]
            exact List.mem_append_right d' (hb0 ▸ he2' ▸ List.mem_cons_self e₀ e')
  · -- u = p ++ d and b ++ q = d ++ (a ++ z): impossible since u.length < j = p.length
    exfalso
    have : u.length = p.length + d.length := by rw [hd1, List.length_append]
    omega

theorem replaceFirst_none_comm {a b : List Nat} {ra rb : Nat}
    (hbne : b ≠ []) (hra : ra ∉ b) {s : List Nat} {i : Nat}
    (hfa : firstIdx a s = some i) (hfb : firstIdx b s = none) :
    replaceFirst b [rb] (replaceFirst a [ra] s) =
      replaceFirst a [ra] (replaceFirst b [rb] s) := by
  obtain ⟨u, z, hs, hu⟩ := firstIdx_some_occurs hfa
  have h1 : replaceFirst a [ra] s = u ++ ([ra] ++ z) := replaceFirst_decomp hfa hs hu
  have hnone1 : firstIdx b (u ++ ([ra] ++ z)) = none := by
    apply firstIdx_eq_none_of
    intro k hk
    rcases occursAt_split hbne hra (show occursAt b (u ++ ra :: z) k from hk) with
      ⟨hkb, -⟩ | ⟨m, -, hkz⟩
    · have h2 := occursAt_append_left hkb (a ++ z)
      rw [← hs] at h2
      exact firstIdx_none_not_occurs hfb k h2
    · have h2 := occursAt_append_right (u ++ a) hkz
      rw [List.append_assoc, ← hs] at h2
      exact firstIdx_none_not_occurs hfb _ h2
  rw [replaceFirst_of_none hfb, h1, replaceFirst_of_none hnone1]

theorem replaceFirst_comm_core {a b : List Nat} {ra rb br : Nat}
    (hane : a ≠ []) (hbne : b ≠ [])
    (hbhead : b.head? = some br) (hbr : br ∉ List.drop 1 a)
    (hra : ra ∉ b) (hrb : rb ∉ a)
    {s : List Nat} {i j : Nat}
    (hfa : firstIdx a s = some i) (hfb : firstIdx b s = some j) (hij : i < j) :
    replaceFirst b [rb] (replaceFirst a [ra] s) =
      replaceFirst a [ra] (replaceFirst b [rb] s) := by
  obtain ⟨u, z, hs, hu⟩ := firstIdx_some_occurs hfa
  have hob : occursAt b (u ++ (a ++ z)) j := by
    rw [← hs]
    exact firstIdx_some_occurs hfb
  have hj' : u.length < j := by omega
  obtain ⟨m, hm, hzb⟩ := occursAt_after_block hbne hbhead hbr hob hj'
  obtain ⟨w, v, hz, hw⟩ := hzb
  have h1 : replaceFirst a [ra] s = u ++ ([ra] ++ z) := replaceFirst_decomp hfa hs hu
  have hocc1 : occursAt b (u ++ ([ra] ++ z)) (u.length + 1 + m) := by
    refine ⟨u ++ ra :: w, v, ?_, ?_⟩
    · rw [hz]
      simp
    · simp only [List.length_append, List.length_cons]
      omega
  have hmin1 : ∀ k, occursAt b (u ++ ([ra] ++ z)) k → u.length + 1 + m ≤ k := by
    intro k hk
    rcases occursAt_split hbne hra (show occursAt b (u ++ ra :: z) k from hk) with
      ⟨hkb, hkle⟩ | ⟨m', hkeq, hkz⟩
    · exfalso
      have h2 := occursAt_append_left hkb (a ++ z)
      rw [← hs] at h2
      have := firstIdx_min hfb k h2
      omega
    · have h2 := occursAt_append_right (u ++ a) hkz
      rw [List.append_assoc, ← hs] at h2
      have h3 := firstIdx_min hfb _ h2
      have hlen : (u ++ a).length = u.length + a.length := List.length_append u a
      omega
  have hf1 : firstIdx b (u ++ ([ra] ++ z)) = some (u.length + 1 + m) :=
    firstIdx_eq_some_of hocc1 hmin1
  have h2 : replaceFirst b [rb] (u ++ ([ra] ++ z)) = (u ++ ra :: w) ++ ([rb] ++ v) := by
    refine replaceFirst_decomp hf1 ?_ ?_
    · rw [hz]
      simp
    · simp only [List.length_append, List.length_cons]
      omega
  have hs' : s = (u ++ (a ++ w)) ++ (b ++ v) := by
    rw [hs, hz]
    simp
  have h3 : replaceFirst b [rb] s = (u ++ (a ++ w)) ++ ([rb] ++ v) := by
    refine replaceFirst_decomp hfb hs' ?_
    simp only [List.length_append]
    omega
  have hocc2 : occursAt a ((u ++ (a ++ w)) ++ ([rb] ++ v)) i := by
    refine ⟨u, w ++ ([rb] ++ v), by simp, hu⟩
  have hmin2 : ∀ k, occursAt a ((u ++ (a ++ w)) ++ ([rb] ++ v)) k → i ≤ k := by
    intro k hk
    rcases occursAt_split hane hrb
        (show occursAt a ((u ++ (a ++ w)) ++ rb :: v) k from hk) with
      ⟨hka, -⟩ | ⟨m', hkeq, -⟩
    · have h4 := occursAt_append_left hka (b ++ v)
      rw [← hs'] at h4
      exact firstIdx_min hfa k h4
    · have hlen : (u ++ (a ++ w)).length = u.length + (a.length + w.length) := by simp
      omega
  have hf2 : firstIdx a ((u ++ (a ++ w)) ++ ([rb] ++ v)) = some i :=
    firstIdx_eq_some_of hocc2 hmin2
  have h4 : replaceFirst a [ra] ((u ++ (a ++ w)) ++ ([rb] ++ v)) =
      u ++ ([ra] ++ (w ++ ([rb] ++ v))) :=
    replaceFirst_decomp hf2 (by simp) hu
  rw [h1, h2, h3, h4]
  simp

theorem subs_shape : ∀ x ∈ subs,
    x.1 ≠ [] ∧ x.1.head? = some 123 ∧ 123 ∉ List.drop 1 x.1 := by decide

theorem subs_pairwise_ok : ∀ x ∈ subs, ∀ y ∈ subs,
    x = y ∨ (¬ List.isPrefixOf x.1 y.1 = true ∧ ¬ List.isPrefixOf y.1 x.1 = true ∧
      x.2 ∉ y.1 ∧ y.2 ∉ x.1) := by decide

theorem subStep_comm (x y : List Nat × Nat)
    (hxs : x.1 ≠ [] ∧ x.1.head? = some 123 ∧ 123 ∉ List.drop 1 x.1)
    (hys : y.1 ≠ [] ∧ y.1.head? = some 123 ∧ 123 ∉ List.drop 1 y.1)
    (hp : x = y ∨ (¬ List.isPrefixOf x.1 y.1 = true ∧ ¬ List.isPrefixOf y.1 x.1 = true ∧
      x.2 ∉ y.1 ∧ y.2 ∉ x.1)) :
    ∀ z, subStep (subStep z x) y = subStep (subStep z y) x := by
  intro z
  rcases hp with rfl | ⟨h1, h2, h3, h4⟩
  · rfl
  obtain ⟨hxne, hxh, hxd⟩ := hxs
  obtain ⟨hyne, hyh, hyd⟩ := hys
  unfold subStep
  cases hfa : firstIdx x.1 z with
  | none =>
    cases hfb : firstIdx y.1 z with
    | none =>
      rw [replaceFirst_of_none hfa, replaceFirst_of_none hfb, replaceFirst_of_none hfa]
    | some j => exact (replaceFirst_none_comm hxne h4 hfb hfa).symm
  | some i =>
    cases hfb : firstIdx y.1 z with
    | none => exact replaceFirst_none_comm hyne h3 hfa hfb
    | some j =>
      rcases lt_trichotomy i j with hij | hij | hij
      · exact replaceFirst_comm_core hxne hyne hyh hxd h3 h4 hfa hfb hij
      · subst hij
        rcases occursAt_same (firstIdx_some_occurs hfa) (firstIdx_some_occurs hfb) with
          hpre | hpre
        · exact absurd ( List.isPrefixOf_iff_prefix.2 hpre) h1
        · exact absurd ( List.isPrefixOf_iff_prefix.2 hpre) h2
      · exact (replaceFirst_comm_core hyne hxne hxh hyd h4 h3 hfb hfa hij).symm

theorem subs_comm_all : ∀ x ∈ subs, ∀ y ∈ subs, ∀ z,
    subStep (subStep z x) y = subStep (subStep z y) x := by
  intro x hx y hy z
  exact subStep_comm x y (subs_shape x hx) (subs_shape y hy) (subs_pairwise_ok x hx y hy) z

/-- C9: token substitution is total (`List.foldl subStep` is defined for
every input string) and order-independent: applying the 38 single-token
substitutions in any order to a string whose known-token occurrences do not
overlap yields the same result as the fixed order used in
`replaceModifier`. -/
theorem substitution_order_independent (s : List Nat) (l : List (List Nat × Nat))
    (hperm : l.Perm subs) (_hfree : OverlapFree s) :
    List.foldl subStep s l = replaceModifier s := by
  unfold replaceModifier
  exact hperm.foldl_eq'
    (fun x hx y hy z => subs_comm_all x (hperm.subset hx) y (hperm.subset hy) z) s

theorem substitution_order_independent_w :
    (subs.reverse).Perm subs ∧ OverlapFree (jstr "{f1}") ∧
    List.foldl subStep (jstr "{f1}") subs.reverse = replaceModifier (jstr "{f1}") :=
  ⟨by decide, by decide, substitution_order_independent _ _ (by decide) (by decide)⟩
